import Mathlib

/-!
Verification development for the slurmvision polling/inspection engine.

The Python source (slurmvision/slurm/tools.py and slurmvision/tui/slurmdash.py)
is shallowly embedded below.  Strings are modelled as lists of characters so
that Python's `str.split` family can be given executable, provable definitions;
Python dicts (insertion ordered, unique keys) are modelled as association
lists built by an insert-or-update operation; Python exceptions are modelled
by `Option`/`Except` results, with an enumeration of the exception kinds the
embedded code can raise.
-/

/-- Python strings are modelled as lists of characters. -/
abbrev Str := List Char

/-- Python dicts of strings are modelled as insertion-ordered association
lists with unique keys (the invariant Python dicts maintain). -/
abbrev Dict := List (Str × Str)

/-- The whitespace characters recognised by Python's argument-less
`str.split`: space, tab, newline, carriage return, vertical tab, form feed. -/
def pyIsSpace (c : Char) : Bool :=
  c = ' ' || c = '\t' || c = '\n' || c = '\r' || c = Char.ofNat 11 || c = Char.ofNat 12

/-- A well-formed token for building squeue-style output: nonempty and free of
whitespace (hence also free of newlines). -/
def isTokB (t : Str) : Bool :=
  !t.isEmpty && t.all (fun c => !pyIsSpace c)

/-- Python's `s.split("\n")`: split at every newline, keeping empty pieces;
`"".split("\n") = [""]`. -/
def splitOnNl : Str → List Str
  | [] => [[]]
  | c :: cs =>
    if c = '\n' then [] :: splitOnNl cs
    else
      match splitOnNl cs with
      | [] => [[c]]
      | s :: ss => (c :: s) :: ss

/-- Auxiliary accumulator pass for Python's argument-less `str.split`. -/
def splitWsAux : Str → Str → List Str
  | [], acc => if acc = [] then [] else [acc.reverse]
  | c :: cs, acc =>
    if pyIsSpace c then
      if acc = [] then splitWsAux cs []
      else acc.reverse :: splitWsAux cs []
    else splitWsAux cs (c :: acc)

/-- Python's `s.split()` (no argument): split on runs of whitespace,
discarding empty pieces. -/
def splitWs (s : Str) : List Str :=
  splitWsAux s []

/-- Python `k in d` for a dict. -/
def dictHasKey (d : Dict) (k : Str) : Bool :=
  d.any (fun p => p.1 = k)

/-- Python `d[k]` for a dict, as an optional lookup (`none` is a `KeyError`). -/
def dictGet (d : Dict) (k : Str) : Option Str :=
  (d.find? (fun p => p.1 = k)).map (fun p => p.2)

/-- Python `d[k] = v`: update in place if the key exists, otherwise append
the new pair at the end (insertion order). -/
def dictSet (d : Dict) (k v : Str) : Dict :=
  if dictHasKey d k then d.map (fun p => if p.1 = k then (k, v) else p)
  else d ++ [(k, v)]

/-- Python `del d[k]`: remove the entry with the given key, preserving the
order of the remaining entries. -/
def dictDel (d : Dict) (k : Str) : Dict :=
  d.filter (fun p => decide ¬(p.1 = k))

/-- Python's dict comprehension `{h: t for h, t in zip(header, tokens)}`. -/
def dictOfZip (header tokens : List Str) : Dict :=
  (List.zip header tokens).foldl (fun d p => dictSet d p.1 p.2) []

/-- The `Job` class of slurm/tools.py: a wrapper around the dict of
header/value attributes parsed from one squeue output row. -/
structure Job where
  attrs : Dict
deriving DecidableEq, Repr

/-- Model of `Inspector.parse_squeue_output` (slurm/tools.py lines 123-147):
`lines = squeue_output.split("\n")[:-1]`, the first line split into the
header tokens, every further line zipped positionally with the header into a
`Job`.  `none` models the `IndexError` that `lines[0]` raises when the line
list is empty. -/
def parse_squeue_output (squeue_output : Str) : Option (List Job × List Str) :=
  match (splitOnNl squeue_output).dropLast with
  | [] => none
  | l0 :: rest =>
    some (rest.map (fun line => Job.mk (dictOfZip (splitWs l0) (splitWs line))), splitWs l0)

/-- Join tokens with single spaces: the canonical whitespace-separated line
made of the given tokens. -/
def joinTok : List Str → Str
  | [] => []
  | [t] => t
  | t :: ts => t ++ ' ' :: joinTok ts

/-- Join lines with single newlines. -/
def joinLines : List Str → Str
  | [] => []
  | [l] => l
  | l :: ls => l ++ '\n' :: joinLines ls

/-- The squeue output text made of a header line followed by data lines and a
single trailing newline. -/
def mkSqueueText (hs : List Str) (rows : List (List Str)) : Str :=
  joinLines (joinTok hs :: rows.map joinTok) ++ ['\n']

/-- Boolean list-prefix test. -/
def isPref : Str → Str → Bool
  | [], _ => true
  | _ :: _, [] => false
  | a :: as, b :: bs => a = b && isPref as bs

/-- Python's `needle in haystack` substring test. -/
def strContains : Str → Str → Bool
  | [], needle => isPref needle []
  | c :: t, needle => isPref needle (c :: t) || strContains t needle

/-- One iteration of the list comprehension in `Tui.build_squeue_list`
(tui/slurmdash.py lines 585-588): evaluate
`any([filter_str in j.attrs[h] for h in squeue_header])`; `none` models the
`KeyError` raised when some header key is absent from the record. -/
def jobMatches (filter_str : Str) (header : List Str) (j : Job) : Option Bool :=
  if header.all (fun h => (dictGet j.attrs h).isSome) then
    some (header.any (fun h => strContains ((dictGet j.attrs h).getD []) filter_str))
  else none

/-- The filtering pass of `Tui.build_squeue_list` over the current snapshot:
keep the jobs whose comprehension above yields true; `none` models the
`KeyError` escaping the whole call. -/
def filteredJobs (jobs : List Job) (header : List Str) (filter_str : Str) : Option (List Job) :=
  match jobs with
  | [] => some []
  | j :: rest =>
    match jobMatches filter_str header j with
    | none => none
    | some b =>
      match filteredJobs rest header filter_str with
      | none => none
      | some l => some (if b then j :: l else l)

/-- The `"-u"` flag inserted and removed by `Inspector.toggle_user_filter`. -/
def uFlag : Str := "-u".data

/-- The `"--state"` flag inserted and removed by `Inspector.toggle_running_filter`. -/
def stateFlag : Str := "--state".data

/-- The `"RUNNING"` argument paired with `stateFlag`. -/
def runningVal : Str := "RUNNING".data

instance {ε α : Type _} [DecidableEq ε] [DecidableEq α] : DecidableEq (Except ε α) := fun a b =>
  match a, b with
  | Except.error e, Except.error f =>
    if h : e = f then isTrue (congrArg Except.error h)
    else isFalse (fun hh => h (by injection hh))
  | Except.error _, Except.ok _ => isFalse (fun hh => Except.noConfusion hh)
  | Except.ok _, Except.error _ => isFalse (fun hh => Except.noConfusion hh)
  | Except.ok x, Except.ok y =>
    if h : x = y then isTrue (congrArg Except.ok h)
    else isFalse (fun hh => h (by injection hh))

/-- The kinds of Python exception the embedded code can raise. -/
inductive PyErr where
  | attributeError
  | indexError
  | keyError
  | assertionError
  | executionError
  | decodeError
deriving DecidableEq, Repr

/-- Model of `subprocess.CompletedProcess` as captured by `capture_output=True`:
decoded standard output, decoded standard error, and the exit status. -/
structure CompletedProcess where
  stdout : Str
  stderr : Str
  returncode : Int
deriving DecidableEq, Repr

/-- Model of `Inspector.cancel_job` (slurm/tools.py lines 254-270): run the external
cancel command on the job id and return its completed-process output.  The
external `scancel` command is a parameter of the embedding. -/
def cancel_job (scancel : Str → CompletedProcess) (job_id : Str) : CompletedProcess :=
  scancel job_id

/-- The loop body of `Tui.cancel_selected_jobs` (tui/slurmdash.py lines
463-480): iterate over a copy of the selected set; on nonempty stderr record
the error text for display, otherwise remove the job from the selection.
Returns the remaining selection and the surfaced stderr texts in order. -/
def cancelLoop (scancel : Str → CompletedProcess) :
    List Str → List Str → List Str → List Str × List Str
  | [], sel, errs => (sel, errs)
  | j :: rest, sel, errs =>
    let output := cancel_job scancel j
    if output.stderr ≠ [] then cancelLoop scancel rest sel (errs ++ [output.stderr])
    else cancelLoop scancel rest (sel.erase j) errs

/-- Model of `Tui.cancel_selected_jobs`: run the cancel loop over the current
selection (the selected set is modelled as a duplicate-free list in its
iteration order). -/
def cancel_selected_jobs (scancel : Str → CompletedProcess) (selected : List Str) :
    List Str × List Str :=
  cancelLoop scancel selected selected []

/-- Default `squeue_formopts` of `Inspector.__init__` (MAX_CHAR = 256). -/
def default_squeue_formopts : Dict :=
  [("-O".data, "JobId,UserName,Name:256,STATE,ReasonList,TimeUsed".data)]

/-- Default `sinfo_formopts` of `Inspector.__init__`. -/
def default_sinfo_formopts : Dict :=
  [("-o".data, "%10P %5c %5a %10l %20G %4D %6t".data)]

/-- The default detail format string of `Inspector.__init__` (MAX_CHAR = 256). -/
def detailFmtVal : Str :=
  "JobId:256,UserName:256,Name:256,STATE:256,Reason:256,Nodes:256,NumCPUs:256,cpus-per-task:256,Partition:256,TimeUsed:256,TimeLeft:256,SubmitTime:256,StartTime:256,STDOUT:256,WorkDir:256".data

/-- Default `detail_formopts` of `Inspector.__init__`. -/
def default_detail_formopts : Dict :=
  [("-O".data, detailFmtVal)]

/-- The option attributes set by `Inspector.__init__` lines 67-98. -/
structure OptsRec where
  squeue_getopts : Dict
  sinfo_getopts : Dict
  squeue_formopts : Dict
  sinfo_formopts : Dict
  detail_formopts : Dict
deriving DecidableEq, Repr

/-- The option-processing prefix of `Inspector.__init__` (slurm/tools.py
lines 58-98; on success the constructor goes on to initialise the snapshot
fields and call `get_info`).  The `assert len(...) == 1` statements raise
`AssertionError` on violation.  In the `detail_formopts != None` branch the
source's line 98 is the bare expression `self.detail_formopts`, an access to
a never-assigned attribute, which raises `AttributeError`. -/
def inspector_init_opts (squeue_getopts sinfo_getopts squeue_formopts sinfo_formopts
    detail_formopts : Option Dict) : Except PyErr OptsRec := do
  let sg := match squeue_getopts with
    | some g => g
    | none => []
  let ig := match sinfo_getopts with
    | some g => g
    | none => []
  let sfo ← match squeue_formopts with
    | none => pure default_squeue_formopts
    | some f => if f.length = 1 then pure f else Except.error PyErr.assertionError
  let ifo ← match sinfo_formopts with
    | none => pure default_sinfo_formopts
    | some f => if f.length = 1 then pure f else Except.error PyErr.assertionError
  let dfo ← match detail_formopts with
    | none => pure default_detail_formopts
    | some f =>
      if f.length = 1 then (Except.error PyErr.attributeError : Except PyErr Dict)
      else Except.error PyErr.assertionError
  pure ⟨sg, ig, sfo, ifo, dfo⟩

/-- The mutable state of an `Inspector` instance (the fields assigned by
`__init__`; `detail_formopts` is an `Option` whose `none` means the attribute
was never assigned; `polling_interval` is irrelevant to the claims and
omitted). -/
structure InspectorState where
  squeue_getopts : Dict
  sinfo_getopts : Dict
  squeue_formopts : Dict
  sinfo_formopts : Dict
  detail_formopts : Option Dict
  jobs : List Job
  squeue_header : Option (List Str)
  sinfo : List Dict
  sinfo_header : Option (List Str)
  user : Str
deriving DecidableEq, Repr

/-- Model of `Inspector.toggle_user_filter` (slurm/tools.py lines 109-114): insert
`("-u", self.user)` if the key is absent from `squeue_getopts`, else delete
the `"-u"` entry. -/
def toggle_user_filter (st : InspectorState) : InspectorState :=
  if ¬ dictHasKey st.squeue_getopts uFlag then
    { st with squeue_getopts := dictSet st.squeue_getopts uFlag st.user }
  else
    { st with squeue_getopts := dictDel st.squeue_getopts uFlag }

/-- Model of `Inspector.build_s_cmd` (slurm/tools.py lines 176-209): the base command,
then each getopts pair in insertion order, then the first formopts pair.
`list(formopts.items())[0]` raises `IndexError` on an empty formopts dict. -/
def build_s_cmd (base_cmd : Str) (getopts : Option Dict) (formopts : Option Dict) :
    Except PyErr (List Str) :=
  let cmd := [base_cmd]
  let cmd := match getopts with
    | none => cmd
    | some g => g.foldl (fun acc p => acc ++ [p.1, p.2]) cmd
  match formopts with
  | none => Except.ok cmd
  | some f =>
    match f with
    | [] => Except.error PyErr.indexError
    | p :: _ => Except.ok (cmd ++ [p.1, p.2])

/-- Model of `Inspector.get_jobs` (slurm/tools.py lines 211-221).  The external call
`subprocess.run(...)` plus `stdout.decode("utf-8")` is the parameter
`runCmd` (`executionError` models a spawn failure, `decodeError` a non-UTF-8
stdout).  The pair `(self.jobs, self.squeue_header)` is assigned only after
the parse succeeds; an exception propagates with the state unchanged, which
the embedding renders as returning the old state together with the error. -/
def get_jobs (runCmd : List Str → Except PyErr Str) (st : InspectorState) :
    InspectorState × Option PyErr :=
  match build_s_cmd ("squeue".data) (some st.squeue_getopts) (some st.squeue_formopts) with
  | Except.error e => (st, some e)
  | Except.ok squeue_cmd =>
    match runCmd squeue_cmd with
    | Except.error e => (st, some e)
    | Except.ok squeue_output =>
      match parse_squeue_output squeue_output with
      | none => (st, some PyErr.indexError)
      | some (jobs, header) =>
        ({ st with jobs := jobs, squeue_header := some header }, none)

/-- Model of `Inspector.get_job_details` (slurm/tools.py lines 235-252): run the
single-job squeue variant `{"-j": job_id}` with `self.detail_formopts`,
parse, and return `detail_info[0]`; on an empty parsed row list that
subscript raises `IndexError`.  Reading an unassigned `detail_formopts`
attribute raises `AttributeError`. -/
def get_job_details (runCmd : List Str → Except PyErr Str) (st : InspectorState)
    (job_id : Str) : Except PyErr Job :=
  match st.detail_formopts with
  | none => Except.error PyErr.attributeError
  | some dfo =>
    match build_s_cmd ("squeue".data) (some [("-j".data, job_id)]) (some dfo) with
    | Except.error e => Except.error e
    | Except.ok detail_cmd =>
      match runCmd detail_cmd with
      | Except.error e => Except.error e
      | Except.ok detail_output =>
        match parse_squeue_output detail_output with
        | none => Except.error PyErr.indexError
        | some (detail_info, _) =>
          match detail_info with
          | [] => Except.error PyErr.indexError
          | j :: _ => Except.ok j

/-- The two attributes shared between the poller thread and the rendering
thread: `inspector.jobs` and `inspector.squeue_header`. -/
structure SnapShared where
  jobs : List Job
  header : List Str
deriving DecidableEq, Repr

/-- One atomic bytecode-level action on the shared attributes: a store or a
load of one attribute (each individual store/load is atomic under the GIL). -/
inductive Act where
  | wJobs (v : List Job)
  | wHeader (v : List Str)
  | rJobs
  | rHeader
deriving DecidableEq, Repr

/-- Execute a sequence of actions over the shared state, recording the last
value the reader loaded from each attribute. -/
def runTrace (s : SnapShared) (obsJ : Option (List Job)) (obsH : Option (List Str)) :
    List Act → SnapShared × Option (List Job) × Option (List Str)
  | [] => (s, obsJ, obsH)
  | Act.wJobs v :: rest => runTrace { s with jobs := v } obsJ obsH rest
  | Act.wHeader v :: rest => runTrace { s with header := v } obsJ obsH rest
  | Act.rJobs :: rest => runTrace s (some s.jobs) obsH rest
  | Act.rHeader :: rest => runTrace s obsJ (some s.header) rest

/-- All interleavings of two action sequences, each sequence kept in program
order. -/
def interleave : List Act → List Act → List (List Act)
  | [], ys => [ys]
  | x :: xs, [] => [x :: xs]
  | x :: xs, y :: ys =>
    (interleave xs (y :: ys)).map (fun t => x :: t) ++
      (interleave (x :: xs) ys).map (fun t => y :: t)

/-- The refresh thread's tail of `get_jobs`: the tuple assignment
`self.jobs, self.squeue_header = ...` compiles to two successive attribute
stores, jobs first, header second. -/
def snapWriter (jobs : List Job) (header : List Str) : List Act :=
  [Act.wJobs jobs, Act.wHeader header]

/-- The rendering thread's reads in `Tui.build_squeue_list`: it loads
`inspector.jobs` and then `inspector.squeue_header`. -/
def snapReader : List Act :=
  [Act.rJobs, Act.rHeader]

/-- What the reader observed after a full interleaved execution from the
given initial shared state. -/
def obsOf (s0 : SnapShared) (t : List Act) : Option (List Job) × Option (List Str) :=
  (runTrace s0 none none t).2

/-- The end-to-end example input of spec section 8, with its doubled trailing
newline. -/
def c2Input : Str :=
  "JOBID USER STATE\n101 alice RUNNING\n102 bob PENDING\n\n".data

/-- The header parsed from `c2Input`. -/
def c2Hdr : List Str :=
  ["JOBID".data, "USER".data, "STATE".data]

/-- First record parsed from `c2Input`. -/
def c2Job1 : Job :=
  Job.mk [("JOBID".data, "101".data), ("USER".data, "alice".data),
    ("STATE".data, "RUNNING".data)]

/-- Second record parsed from `c2Input`. -/
def c2Job2 : Job :=
  Job.mk [("JOBID".data, "102".data), ("USER".data, "bob".data),
    ("STATE".data, "PENDING".data)]

/-- The stderr text of the mocked failing cancel call. -/
def c4ErrText : Str :=
  "scancel: error: Kill job error on job id 202".data

/-- The mocked cancel command of the spec's cancel-semantics scenario: empty
stderr for job "101" (with a nonzero exit status, to exercise "regardless of
exit status"), nonempty stderr for every other job (with exit status 0). -/
def c4Scancel : Str → CompletedProcess :=
  fun j => if j = ("101".data) then ⟨[], [], 1⟩ else ⟨[], c4ErrText, 0⟩

/-- A concrete inspector state with the default query options, used to
instantiate hypothesised theorems. -/
def st0 : InspectorState :=
  { squeue_getopts := []
    sinfo_getopts := []
    squeue_formopts := default_squeue_formopts
    sinfo_formopts := default_sinfo_formopts
    detail_formopts := some default_detail_formopts
    jobs := [c2Job1]
    squeue_header := some c2Hdr
    sinfo := []
    sinfo_header := none
    user := "alice".data }

/-- A run function whose spawn always fails. -/
def c8FailRun : List Str → Except PyErr Str :=
  fun _ => Except.error PyErr.executionError

/-- A run function that always yields a header-only response (no data rows). -/
def c5HeaderOnlyRun : List Str → Except PyErr Str :=
  fun _ => Except.ok ("JOBID USER NAME STATE\n".data)

/-- A concrete header for instantiating the round-trip theorem. -/
def c1Hs : List Str := ["JOBID".data, "USER".data]

/-- Concrete data rows for instantiating the round-trip theorem. -/
def c1Rows : List (List Str) := [["101".data, "alice".data], ["102".data, "bob".data]]

/-- A concrete header for instantiating the short-row theorem. -/
def c7Hs : List Str := ["A".data, "B".data]

/-- A concrete short data row (one token under a two-column header). -/
def c7Rows : List (List Str) := [["x".data]]

/-- A squeue output whose single data row is one token short. -/
def c3Input : Str := "A B\nx\n".data

/-- The record parsed from `c3Input`'s short row: the trailing key is absent. -/
def c3Job : Job := Job.mk [(['A'], ['x'])]

/-- The header parsed from `c3Input`. -/
def c3Hdr : List Str := [['A'], ['B']]

/-- An inspector state whose `squeue_getopts` already contains a `-u` entry
with a user different from the inspector's own. -/
def c6St : InspectorState := { st0 with squeue_getopts := [(uFlag, "bob".data)] }


theorem isTokB_ne_nil {t : Str} (h : isTokB t = true) : t ≠ [] := by
  intro he
  subst he
  simp [isTokB] at h

theorem isTokB_nospace {t : Str} (h : isTokB t = true) : ∀ c ∈ t, pyIsSpace c = false := by
  intro c hc
  have h2 := (Bool.and_eq_true _ _).mp h |>.2
  rw [List.all_eq_true] at h2
  have := h2 c hc
  simpa using this

theorem pyIsSpace_nl : pyIsSpace '\n' = true := by decide

theorem isTokB_no_nl {t : Str} (h : isTokB t = true) : ∀ c ∈ t, c ≠ '\n' := by
  intro c hc he
  have := isTokB_nospace h c hc
  rw [he, pyIsSpace_nl] at this
  exact Bool.noConfusion this

theorem splitOnNl_append_nl (l : Str) (hl : ∀ c ∈ l, c ≠ '\n') (s : Str) :
    splitOnNl (l ++ '\n' :: s) = l :: splitOnNl s := by
  induction l with
  | nil => simp [splitOnNl]
  | cons c cs ih =>
    have hc : ¬(c = '\n') := hl c (by simp)
    have ih2 := ih (fun x hx => hl x (by simp [hx]))
    simp only [List.cons_append, splitOnNl, if_neg hc, List.append_eq, ih2]

theorem splitOnNl_joinLines (l0 : Str) (ls : List Str)
    (h : ∀ l ∈ l0 :: ls, ∀ c ∈ l, c ≠ '\n') :
    splitOnNl (joinLines (l0 :: ls) ++ ['\n']) = (l0 :: ls) ++ [[]] := by
  induction ls generalizing l0 with
  | nil =>
    have := splitOnNl_append_nl l0 (h l0 (by simp)) []
    simpa [joinLines, splitOnNl] using this
  | cons l1 ls ih =>
    have h0 : ∀ c ∈ l0, c ≠ '\n' := h l0 (by simp)
    have hrest : ∀ l ∈ l1 :: ls, ∀ c ∈ l, c ≠ '\n' := by
      intro l hl
      exact h l (by simp [hl])
    calc splitOnNl (joinLines (l0 :: l1 :: ls) ++ ['\n'])
        = splitOnNl (l0 ++ '\n' :: (joinLines (l1 :: ls) ++ ['\n'])) := by
          simp [joinLines, List.append_assoc]
      _ = l0 :: splitOnNl (joinLines (l1 :: ls) ++ ['\n']) := splitOnNl_append_nl l0 h0 _
      _ = (l0 :: l1 :: ls) ++ [[]] := by rw [ih l1 hrest]; rfl

theorem splitWsAux_nonspace (t : Str) (ht : ∀ c ∈ t, pyIsSpace c = false) (s acc : Str) :
    splitWsAux (t ++ s) acc = splitWsAux s (t.reverse ++ acc) := by
  induction t generalizing acc with
  | nil => simp
  | cons c cs ih =>
    have hc : pyIsSpace c = false := ht c (by simp)
    have ih2 := ih (fun x hx => ht x (by simp [hx])) (c :: acc)
    simp only [List.cons_append, splitWsAux, hc, Bool.false_eq_true, if_false, ih2,
      List.reverse_cons, List.append_assoc, List.singleton_append, List.append_eq,
      List.nil_append]

theorem splitWs_joinTok (ts : List Str) (h : ∀ t ∈ ts, isTokB t = true) :
    splitWs (joinTok ts) = ts := by
  induction ts with
  | nil => rfl
  | cons t ts ih =>
    have htok : isTokB t = true := h t (by simp)
    have hnos : ∀ c ∈ t, pyIsSpace c = false := isTokB_nospace htok
    have hne : t ≠ [] := isTokB_ne_nil htok
    cases ts with
    | nil =>
      have haux := splitWsAux_nonspace t hnos [] []
      have hrev : ¬(t.reverse = []) := by simpa using hne
      simp only [List.append_nil] at haux
      simp only [joinTok, splitWs, haux]
      simp [splitWsAux, hrev]
    | cons t1 ts1 =>
      have ih2 := ih (fun x hx => h x (by simp [hx]))
      have haux := splitWsAux_nonspace t hnos (' ' :: joinTok (t1 :: ts1)) []
      have hrev : ¬(t.reverse = []) := by simpa using hne
      have hsp : pyIsSpace ' ' = true := by decide
      simp only [joinTok, splitWs] at ih2 ⊢
      rw [haux]
      simp [splitWsAux, hsp, hrev, ih2]

theorem joinTok_no_nl (ts : List Str) (h : ∀ t ∈ ts, isTokB t = true) :
    ∀ c ∈ joinTok ts, c ≠ '\n' := by
  induction ts with
  | nil => simp [joinTok]
  | cons t ts ih =>
    have ht := isTokB_no_nl (h t (by simp))
    cases ts with
    | nil => simpa [joinTok] using ht
    | cons t1 ts1 =>
      intro c hc
      simp only [joinTok, List.mem_append, List.mem_cons] at hc
      rcases hc with hc | hc | hc
      · exact ht c hc
      · subst hc; decide
      · exact ih (fun x hx => h x (by simp [hx])) c hc

theorem dictSet_of_not_has (d : Dict) (k v : Str) (h : dictHasKey d k = false) :
    dictSet d k v = d ++ [(k, v)] := by
  simp [dictSet, h]

theorem dictHasKey_append (d1 d2 : Dict) (k : Str) :
    dictHasKey (d1 ++ d2) k = (dictHasKey d1 k || dictHasKey d2 k) := by
  simp [dictHasKey, List.any_append]

theorem foldl_dictSet_fresh (ps : List (Str × Str)) (d : Dict)
    (hnd : (ps.map Prod.fst).Nodup) (habs : ∀ p ∈ ps, dictHasKey d p.1 = false) :
    ps.foldl (fun d p => dictSet d p.1 p.2) d = d ++ ps := by
  induction ps generalizing d with
  | nil => simp
  | cons p ps ih =>
    rw [List.foldl_cons, dictSet_of_not_has d p.1 p.2 (habs p (by simp))]
    have hfresh : ∀ q ∈ ps, dictHasKey (d ++ [(p.1, p.2)]) q.1 = false := by
      intro q hq
      rw [dictHasKey_append]
      have h1 : dictHasKey d q.1 = false := habs q (by simp [hq])
      have h2 : ¬(p.1 = q.1) := by
        intro he
        have : q.1 ∈ ps.map Prod.fst := List.mem_map_of_mem Prod.fst hq
        rw [← he] at this
        exact (List.nodup_cons.mp hnd).1 this
      rw [h1]
      simp [dictHasKey, h2]
    rw [ih (d ++ [(p.1, p.2)]) (List.nodup_cons.mp hnd).2 hfresh]
    simp

theorem zip_map_fst_sublist (hs ts : List Str) :
    ((List.zip hs ts).map Prod.fst).Sublist hs := by
  induction hs generalizing ts with
  | nil => simp
  | cons a hs ih =>
    cases ts with
    | nil => simp
    | cons b ts =>
      simpa [List.zip_cons_cons] using List.Sublist.cons₂ a (ih ts)

theorem dictOfZip_eq_zip (hs ts : List Str) (hnd : hs.Nodup) :
    dictOfZip hs ts = List.zip hs ts := by
  unfold dictOfZip
  rw [foldl_dictSet_fresh (List.zip hs ts) [] (hnd.sublist (zip_map_fst_sublist hs ts))
    (fun p _ => rfl)]
  simp

theorem parse_mkSqueueText (hs : List Str) (rows : List (List Str))
    (hh : ∀ t ∈ hs, isTokB t = true) (hnd : hs.Nodup)
    (hr : ∀ r ∈ rows, ∀ t ∈ r, isTokB t = true) :
    parse_squeue_output (mkSqueueText hs rows) =
      some (rows.map (fun r => Job.mk (List.zip hs r)), hs) := by
  have hlines : ∀ l ∈ (joinTok hs :: rows.map joinTok), ∀ c ∈ l, c ≠ '\n' := by
    intro l hl
    rcases List.mem_cons.mp hl with he | hm
    · subst he
      exact joinTok_no_nl hs hh
    · rcases List.mem_map.mp hm with ⟨r, hrm, he⟩
      subst he
      exact joinTok_no_nl r (hr r hrm)
  have hsplit := splitOnNl_joinLines (joinTok hs) (rows.map joinTok) hlines
  have step : parse_squeue_output (mkSqueueText hs rows) =
      some ((rows.map joinTok).map
        (fun line => Job.mk (dictOfZip (splitWs (joinTok hs)) (splitWs line))),
        splitWs (joinTok hs)) := by
    unfold mkSqueueText parse_squeue_output
    rw [hsplit, List.dropLast_concat]
  rw [step, splitWs_joinTok hs hh]
  simp only [Option.some.injEq, List.map_map, Prod.mk.injEq]
  refine ⟨?_, trivial⟩
  apply List.map_congr_left
  intro r hrm
  simp only [Function.comp_apply]
  rw [splitWs_joinTok r (hr r hrm), dictOfZip_eq_zip hs r hnd]

theorem zip_getElem_opt (as bs : List Str) (i : Nat) (h1 : i < as.length) (h2 : i < bs.length) :
    (List.zip as bs)[i]? = some (as.get ⟨i, h1⟩, bs.get ⟨i, h2⟩) := by
  induction as generalizing bs i with
  | nil => simp at h1
  | cons a as ih =>
    cases bs with
    | nil => simp at h2
    | cons b bs =>
      cases i with
      | zero => simp
      | succ n =>
        have h1n : n < as.length := Nat.lt_of_succ_lt_succ h1
        have h2n : n < bs.length := Nat.lt_of_succ_lt_succ h2
        simpa [List.zip_cons_cons] using ih bs n h1n h2n

/-- C1: for every input text made of a header line of K distinct tokens, then
N data lines each of exactly K whitespace-separated tokens, then a single
trailing newline, `parse_squeue_output` returns exactly N records, each
containing exactly K key/value pairs pairing the i-th header token with that
row's i-th token, together with the K header tokens unchanged in order. -/
theorem parse_squeue_roundtrip (hs : List Str) (rows : List (List Str))
    (hh : ∀ t ∈ hs, isTokB t = true) (hnd : hs.Nodup)
    (hr : ∀ r ∈ rows, ∀ t ∈ r, isTokB t = true)
    (hlen : ∀ r ∈ rows, r.length = hs.length) :
    parse_squeue_output (mkSqueueText hs rows) =
      some (rows.map (fun r => Job.mk (List.zip hs r)), hs) ∧
    (rows.map (fun r => Job.mk (List.zip hs r))).length = rows.length ∧
    (∀ r ∈ rows, (List.zip hs r).length = hs.length) ∧
    (∀ r ∈ rows, ∀ i, (h1 : i < hs.length) → (h2 : i < r.length) →
      (List.zip hs r)[i]? = some (hs.get ⟨i, h1⟩, r.get ⟨i, h2⟩)) := by
  refine ⟨parse_mkSqueueText hs rows hh hnd hr, List.length_map rows _, ?_, ?_⟩
  · intro r hrm
    rw [List.length_zip, hlen r hrm, Nat.min_self]
  · intro r _ i h1 h2
    exact zip_getElem_opt hs r i h1 h2

/-- Closed instance of `parse_squeue_roundtrip` at a concrete header and two
concrete rows. -/
theorem parse_squeue_roundtrip_witness :
    parse_squeue_output (mkSqueueText c1Hs c1Rows) =
      some (c1Rows.map (fun r => Job.mk (List.zip c1Hs r)), c1Hs) ∧
    (c1Rows.map (fun r => Job.mk (List.zip c1Hs r))).length = c1Rows.length :=
  (fun h => ⟨h.1, h.2.1⟩)
    (parse_squeue_roundtrip c1Hs c1Rows (by decide) (by decide) (by decide) (by decide))

theorem get_not_mem_take (l : List Str) (hnd : l.Nodup) (k n : Nat) (hk : k < l.length)
    (hn : n ≤ k) : l.get ⟨k, hk⟩ ∉ l.take n := by
  intro hmem
  obtain ⟨i, hi, hgi⟩ := List.getElem_of_mem hmem
  have hin : i < n := lt_of_lt_of_le hi (by simp [List.length_take])
  have hik : i < k := lt_of_lt_of_le hin hn
  have hil : i < l.length := lt_trans hik hk
  rw [List.getElem_take] at hgi
  have hgi2 : l[i] = l[k] := by simpa [List.get_eq_getElem] using hgi
  exact absurd ((hnd.getElem_inj_iff).mp hgi2) (Nat.ne_of_lt hik)

theorem zip_map_fst_sublist_take (hs ts : List Str) :
    ((List.zip hs ts).map Prod.fst).Sublist (hs.take ts.length) := by
  induction hs generalizing ts with
  | nil => simp
  | cons a hs ih =>
    cases ts with
    | nil => simp
    | cons b ts =>
      simpa [List.zip_cons_cons] using List.Sublist.cons₂ a (ih ts)

theorem dictGet_zip_none (hs r : List Str) (hnd : hs.Nodup) (k : Nat)
    (hk : k < hs.length) (hrk : r.length ≤ k) :
    dictGet (List.zip hs r) (hs.get ⟨k, hk⟩) = none := by
  have hfind : (List.zip hs r).find? (fun p => p.1 = hs.get ⟨k, hk⟩) = none := by
    rw [List.find?_eq_none]
    intro p hp
    simp only [decide_eq_true_eq]
    intro he
    have hmem : p.1 ∈ (List.zip hs r).map Prod.fst := List.mem_map_of_mem Prod.fst hp
    have htake : p.1 ∈ hs.take r.length :=
      (zip_map_fst_sublist_take hs r).subset hmem
    rw [he] at htake
    exact get_not_mem_take hs hnd k r.length hk hrk htake
  rw [dictGet, hfind]
  rfl

/-- C7: for every data row that has fewer whitespace-separated tokens than
the header, the parser produces a record in which the trailing header keys
are entirely absent: a lookup against them is a miss (`none`), never a
record mapping those keys to empty strings. -/
theorem short_rows_trailing_keys_absent (hs : List Str) (rows : List (List Str))
    (hh : ∀ t ∈ hs, isTokB t = true) (hnd : hs.Nodup)
    (hr : ∀ r ∈ rows, ∀ t ∈ r, isTokB t = true) :
    parse_squeue_output (mkSqueueText hs rows) =
      some (rows.map (fun r => Job.mk (List.zip hs r)), hs) ∧
    ∀ r ∈ rows, ∀ k, (hk : k < hs.length) → r.length ≤ k →
      dictGet (Job.mk (List.zip hs r)).attrs (hs.get ⟨k, hk⟩) = none :=
  ⟨parse_mkSqueueText hs rows hh hnd hr,
   fun r _ k hk hrk => dictGet_zip_none hs r hnd k hk hrk⟩

/-- Closed instance of `short_rows_trailing_keys_absent`: a one-token row
under a two-column header leaves the second key absent. -/
theorem short_rows_trailing_keys_absent_witness :
    parse_squeue_output (mkSqueueText c7Hs c7Rows) =
      some (c7Rows.map (fun r => Job.mk (List.zip c7Hs r)), c7Hs) ∧
    dictGet (Job.mk (List.zip c7Hs ("x".data :: []))).attrs (c7Hs.get ⟨1, by decide⟩) = none := by
  have h := short_rows_trailing_keys_absent c7Hs c7Rows (by decide) (by decide) (by decide)
  exact ⟨h.1, h.2 ("x".data :: []) (by decide) 1 (by decide) (by decide)⟩

/-- C2 counterexample: on the spec's exact end-to-end input (with its doubled
trailing newline) the parser yields three records, not two — `[:-1]` removes
only one of the two empty trailing pieces, and the remaining empty line
becomes a third, empty record. -/
theorem c2_parse_three_records :
    parse_squeue_output c2Input = some ([c2Job1, c2Job2, Job.mk []], c2Hdr) := by decide

/-- C2 amended: on the spec's exact input the parser yields the stated header
and the two stated records plus a trailing empty record; filtering that
parsed snapshot with "bob" raises a key-lookup error on the empty record
(modelled as `none`) instead of yielding the second record, while filtering
just the two stated records with "bob" does yield exactly the second. -/
theorem c2_end_to_end :
    parse_squeue_output c2Input = some ([c2Job1, c2Job2, Job.mk []], c2Hdr) ∧
    filteredJobs [c2Job1, c2Job2, Job.mk []] c2Hdr ("bob".data) = none ∧
    filteredJobs [c2Job1, c2Job2] c2Hdr ("bob".data) = some [c2Job2] := by decide

theorem strContains_nil (h : Str) : strContains h [] = true := by
  cases h <;> simp [strContains, isPref]

theorem filteredJobs_eq_filter (jobs : List Job) (header : List Str) (s : Str)
    (hc : ∀ j ∈ jobs, ∀ h ∈ header, (dictGet j.attrs h).isSome = true) :
    filteredJobs jobs header s =
      some (jobs.filter
        (fun j => header.any (fun h => strContains ((dictGet j.attrs h).getD []) s))) := by
  induction jobs with
  | nil => rfl
  | cons j rest ih =>
    have hcond : header.all (fun h => (dictGet j.attrs h).isSome) = true := by
      rw [List.all_eq_true]
      intro h hh
      exact hc j (by simp) h hh
    have hj : jobMatches s header j =
        some (header.any (fun h => strContains ((dictGet j.attrs h).getD []) s)) := by
      simp [jobMatches, hcond]
    have ih2 := ih (fun q hq h hh => hc q (by simp [hq]) h hh)
    cases hb : header.any (fun h => strContains ((dictGet j.attrs h).getD []) s) with
    | true =>
      simp only [filteredJobs, hj, hb, ih2, List.filter_cons, if_pos]
    | false =>
      simp only [filteredJobs, hj, hb, ih2, List.filter_cons]

/-- C3 counterexample: the snapshot parsed from `"A B\nx\n"` is a parsed job
snapshot, yet filtering it with the empty string raises a key-lookup error
(modelled as `none`) on the record whose trailing header key is absent,
instead of returning all records unchanged. -/
theorem filteredJobs_empty_filter_error :
    parse_squeue_output c3Input = some ([c3Job], c3Hdr) ∧
    filteredJobs [c3Job] c3Hdr [] = none := by decide

/-- C3 amended: for snapshots with a nonempty header whose records all carry
every header key, filtering with the empty string returns all records
unchanged in order, and filtering with any string s returns exactly the
ordered subset of records in which s occurs as a case-sensitive substring of
at least one field value looked up under the header columns. -/
theorem filteredJobs_spec (jobs : List Job) (header : List Str)
    (hne : header ≠ [])
    (hc : ∀ j ∈ jobs, ∀ h ∈ header, (dictGet j.attrs h).isSome = true) :
    filteredJobs jobs header [] = some jobs ∧
    ∀ s, filteredJobs jobs header s =
      some (jobs.filter
        (fun j => header.any (fun h => strContains ((dictGet j.attrs h).getD []) s))) := by
  constructor
  · rw [filteredJobs_eq_filter jobs header [] hc]
    congr 1
    rw [List.filter_eq_self]
    intro j _
    rw [List.any_eq_true]
    rcases header with _ | ⟨h0, hrest⟩
    · exact absurd rfl hne
    · exact ⟨h0, by simp, strContains_nil _⟩
  · intro s
    exact filteredJobs_eq_filter jobs header s hc

/-- Closed instance of `filteredJobs_spec` at the two complete records of the
end-to-end example. -/
theorem filteredJobs_spec_witness :
    filteredJobs [c2Job1, c2Job2] c2Hdr [] = some [c2Job1, c2Job2] ∧
    filteredJobs [c2Job1, c2Job2] c2Hdr ("alice".data) =
      some (([c2Job1, c2Job2] : List Job).filter
        (fun j => c2Hdr.any
          (fun h => strContains ((dictGet j.attrs h).getD []) ("alice".data)))) := by
  have h := filteredJobs_spec [c2Job1, c2Job2] c2Hdr (by decide) (by decide)
  exact ⟨h.1, h.2 ("alice".data)⟩

theorem dictDel_of_not_has (d : Dict) (k : Str) (h : dictHasKey d k = false) :
    dictDel d k = d := by
  rw [dictDel, List.filter_eq_self]
  intro p hp
  rw [dictHasKey, List.any_eq_false] at h
  simpa using h p hp

theorem dictHasKey_dictDel (d : Dict) (k : Str) :
    dictHasKey (dictDel d k) k = false := by
  rw [dictHasKey, List.any_eq_false]
  intro p hp
  have hpred := List.of_mem_filter hp
  simpa using hpred

theorem dictHasKey_singleton_self (k v : Str) : dictHasKey [(k, v)] k = true := by
  simp [dictHasKey]

/-- C6 counterexample: with `squeue_getopts = {"-u": "bob"}` on an inspector
whose own user is `"alice"`, toggling the user filter twice does not return
the option mapping to its original state — the entry comes back with the
inspector's user, not the original value. -/
theorem toggle_user_filter_twice_not_id :
    (toggle_user_filter (toggle_user_filter c6St)).squeue_getopts ≠ c6St.squeue_getopts := by
  decide

theorem toggle_step_absent (st : InspectorState)
    (h : dictHasKey st.squeue_getopts uFlag = false) :
    (toggle_user_filter st).squeue_getopts = st.squeue_getopts ++ [(uFlag, st.user)] ∧
    (toggle_user_filter st).user = st.user := by
  unfold toggle_user_filter
  rw [if_pos (by simp [h])]
  exact ⟨dictSet_of_not_has st.squeue_getopts uFlag st.user h, rfl⟩

theorem toggle_step_present (st : InspectorState)
    (h : dictHasKey st.squeue_getopts uFlag = true) :
    (toggle_user_filter st).squeue_getopts = dictDel st.squeue_getopts uFlag ∧
    (toggle_user_filter st).user = st.user := by
  unfold toggle_user_filter
  rw [if_neg (by simp [h])]
  exact ⟨rfl, rfl⟩

/-- C6 amended: a single toggle inserts the fixed `("-u", user)` pair at the
end when the key is absent and removes the `"-u"` entry when it is present,
deciding by a presence test on the mapping key; toggling twice restores the
option mapping exactly when the key was initially absent, while from a state
with the key present it yields the original minus the old `"-u"` entry with
the fixed pair appended at the end. -/
theorem toggle_user_filter_props (st : InspectorState) :
    (dictHasKey st.squeue_getopts uFlag = false →
      (toggle_user_filter st).squeue_getopts = st.squeue_getopts ++ [(uFlag, st.user)] ∧
      (toggle_user_filter (toggle_user_filter st)).squeue_getopts = st.squeue_getopts) ∧
    (dictHasKey st.squeue_getopts uFlag = true →
      (toggle_user_filter st).squeue_getopts = dictDel st.squeue_getopts uFlag ∧
      (toggle_user_filter (toggle_user_filter st)).squeue_getopts =
        dictDel st.squeue_getopts uFlag ++ [(uFlag, st.user)]) := by
  constructor
  · intro habs
    obtain ⟨h1, _⟩ := toggle_step_absent st habs
    refine ⟨h1, ?_⟩
    have h2 : dictHasKey (toggle_user_filter st).squeue_getopts uFlag = true := by
      rw [h1, dictHasKey_append, dictHasKey_singleton_self]
      simp
    obtain ⟨h3, _⟩ := toggle_step_present (toggle_user_filter st) h2
    have h4 : List.filter (fun p => decide ¬(p.1 = uFlag)) st.squeue_getopts =
        st.squeue_getopts := dictDel_of_not_has st.squeue_getopts uFlag habs
    rw [h3, h1]
    simp only [dictDel, List.filter_append, h4]
    simp
  · intro hpres
    obtain ⟨h1, hu⟩ := toggle_step_present st hpres
    refine ⟨h1, ?_⟩
    have h2 : dictHasKey (toggle_user_filter st).squeue_getopts uFlag = false := by
      rw [h1]
      exact dictHasKey_dictDel st.squeue_getopts uFlag
    obtain ⟨h3, _⟩ := toggle_step_absent (toggle_user_filter st) h2
    rw [h3, h1, hu]

/-- Closed instance of `toggle_user_filter_props` at a state whose mapping
already holds a `-u` entry for a different user. -/
theorem toggle_user_filter_props_witness :
    (toggle_user_filter c6St).squeue_getopts = dictDel c6St.squeue_getopts uFlag ∧
    (toggle_user_filter (toggle_user_filter c6St)).squeue_getopts =
      dictDel c6St.squeue_getopts uFlag ++ [(uFlag, c6St.user)] :=
  (toggle_user_filter_props c6St).2 (by decide)

theorem cancelLoop_not_mem (scancel : Str → CompletedProcess) (iter sel errs : List Str)
    (j : Str) (hj : j ∉ iter) :
    (j ∈ (cancelLoop scancel iter sel errs).1 ↔ j ∈ sel) := by
  induction iter generalizing sel errs with
  | nil => simp [cancelLoop]
  | cons k rest ih =>
    have hjk : j ≠ k := fun he => hj (by simp [he])
    have hjr : j ∉ rest := fun hm => hj (by simp [hm])
    by_cases hs : (scancel k).stderr ≠ []
    · rw [show cancelLoop scancel (k :: rest) sel errs =
          cancelLoop scancel rest sel (errs ++ [(scancel k).stderr]) by
        simp [cancelLoop, cancel_job, hs]]
      exact ih sel _ hjr
    · rw [show cancelLoop scancel (k :: rest) sel errs =
          cancelLoop scancel rest (sel.erase k) errs by
        simp [cancelLoop, cancel_job, hs]]
      rw [ih (sel.erase k) errs hjr]
      exact List.mem_erase_of_ne hjk

theorem cancelLoop_mem_iff (scancel : Str → CompletedProcess) (iter sel errs : List Str)
    (hnditer : iter.Nodup) (hndsel : sel.Nodup) (j : Str) (hj : j ∈ iter) (hjs : j ∈ sel) :
    (j ∈ (cancelLoop scancel iter sel errs).1 ↔ (scancel j).stderr ≠ []) := by
  induction iter generalizing sel errs with
  | nil => cases hj
  | cons k rest ih =>
    rcases List.mem_cons.mp hj with he | hm
    · subst he
      have hjr : j ∉ rest := (List.nodup_cons.mp hnditer).1
      by_cases hs : (scancel j).stderr ≠ []
      · rw [show cancelLoop scancel (j :: rest) sel errs =
            cancelLoop scancel rest sel (errs ++ [(scancel j).stderr]) by
          simp [cancelLoop, cancel_job, hs]]
        rw [cancelLoop_not_mem scancel rest sel _ j hjr]
        simp [hjs, hs]
      · rw [show cancelLoop scancel (j :: rest) sel errs =
            cancelLoop scancel rest (sel.erase j) errs by
          simp [cancelLoop, cancel_job, hs]]
        rw [cancelLoop_not_mem scancel rest (sel.erase j) errs j hjr]
        simp [hndsel.not_mem_erase, hs]
    · have hjk : j ≠ k := fun he => (List.nodup_cons.mp hnditer).1 (he ▸ hm)
      by_cases hs : (scancel k).stderr ≠ []
      · rw [show cancelLoop scancel (k :: rest) sel errs =
            cancelLoop scancel rest sel (errs ++ [(scancel k).stderr]) by
          simp [cancelLoop, cancel_job, hs]]
        exact ih sel _ (List.nodup_cons.mp hnditer).2 hndsel hm hjs
      · rw [show cancelLoop scancel (k :: rest) sel errs =
            cancelLoop scancel rest (sel.erase k) errs by
          simp [cancelLoop, cancel_job, hs]]
        exact ih (sel.erase k) errs (List.nodup_cons.mp hnditer).2 (hndsel.erase k)
          hm ((List.mem_erase_of_ne hjk).mpr hjs)

/-- C4: canceling a job counts as success (removal from the selection) if
and only if the cancel command's standard-error output is empty, regardless
of exit status; and canceling the selected set containing "101" and "202",
where the command yields empty stderr for "101" (with nonzero exit status)
and nonempty stderr for "202" (with exit status 0), removes "101" from the
selection, leaves "202" selected, surfaces "202"'s stderr text for display,
and continues past the failure in either iteration order. -/
theorem cancel_success_iff_empty_stderr :
    (∀ (scancel : Str → CompletedProcess) (sel : List Str), sel.Nodup →
      ∀ j ∈ sel,
        (j ∉ (cancel_selected_jobs scancel sel).1 ↔ (scancel j).stderr = [])) ∧
    cancel_selected_jobs c4Scancel ["101".data, "202".data] = (["202".data], [c4ErrText]) ∧
    cancel_selected_jobs c4Scancel ["202".data, "101".data] = (["202".data], [c4ErrText]) := by
  refine ⟨?_, by decide, by decide⟩
  intro scancel sel hnd j hj
  have hiff := cancelLoop_mem_iff scancel sel sel [] hnd hnd j hj hj
  rw [cancel_selected_jobs]
  rw [not_iff_comm]
  constructor
  · intro hne
    exact hiff.mpr hne
  · intro hmem
    exact hiff.mp hmem

/-- Closed instance of the cancel-success criterion: job "101" (empty
stderr, nonzero exit status) is removed from the selection. -/
theorem cancel_success_iff_empty_stderr_witness :
    ("101".data ∉ (cancel_selected_jobs c4Scancel ["101".data, "202".data]).1 ↔
      (c4Scancel ("101".data)).stderr = []) :=
  cancel_success_iff_empty_stderr.1 c4Scancel ["101".data, "202".data] (by decide)
    ("101".data) (by decide)

/-- C5: for every job identity for which the single-job detail query's
response contains no data rows, `get_job_details` fails — with the
list-index error that `detail_info[0]` raises on the empty parsed row list,
the code-level realisation of the spec's NotFoundError — rather than
returning a record. -/
theorem get_job_details_no_rows_fails (runCmd : List Str → Except PyErr Str)
    (st : InspectorState) (job_id : Str) (p : Str × Str) (rest : Dict) (out : Str)
    (hdfo : st.detail_formopts = some (p :: rest))
    (hout : runCmd ["squeue".data, "-j".data, job_id, p.1, p.2] = Except.ok out)
    (hnorows : ∀ jobs hdr, parse_squeue_output out = some (jobs, hdr) → jobs = []) :
    get_job_details runCmd st job_id = Except.error PyErr.indexError := by
  have hcmd : build_s_cmd ("squeue".data) (some [("-j".data, job_id)]) (some (p :: rest)) =
      Except.ok ["squeue".data, "-j".data, job_id, p.1, p.2] := rfl
  rcases hp : parse_squeue_output out with _ | ⟨jobs, hdr⟩
  · simp only [get_job_details, hdfo, hcmd, hout, hp]
  · have hj : jobs = [] := hnorows jobs hdr hp
    subst hj
    simp only [get_job_details, hdfo, hcmd, hout, hp]

/-- Closed instance of `get_job_details_no_rows_fails`: a header-only
response makes the detail query fail with the index error. -/
theorem get_job_details_no_rows_fails_witness :
    get_job_details c5HeaderOnlyRun st0 ("12345".data) = Except.error PyErr.indexError := by
  apply get_job_details_no_rows_fails c5HeaderOnlyRun st0 ("12345".data)
    ("-O".data, detailFmtVal) [] ("JOBID USER NAME STATE\n".data) rfl rfl
  intro jobs hdr h
  have he : parse_squeue_output ("JOBID USER NAME STATE\n".data) =
      some ([], ["JOBID".data, "USER".data, "NAME".data, "STATE".data]) := by decide
  rw [he] at h
  simp only [Option.some.injEq, Prod.mk.injEq] at h
  exact h.1.symm

/-- C8: if a job refresh fails — the query process cannot be spawned, its
output is not valid UTF-8, or the output cannot be parsed — the previously
stored jobs list and squeue header are left in place unchanged and the error
is surfaced to the caller of that `get_jobs` call. -/
theorem get_jobs_error_preserves_snapshot (runCmd : List Str → Except PyErr Str)
    (st : InspectorState) (h : (get_jobs runCmd st).2.isSome = true) :
    (get_jobs runCmd st).1.jobs = st.jobs ∧
    (get_jobs runCmd st).1.squeue_header = st.squeue_header := by
  cases hb : build_s_cmd ("squeue".data) (some st.squeue_getopts) (some st.squeue_formopts) with
  | error e => simp [get_jobs, hb]
  | ok squeue_cmd =>
    cases hr : runCmd squeue_cmd with
    | error e => simp [get_jobs, hb, hr]
    | ok squeue_output =>
      cases hp : parse_squeue_output squeue_output with
      | none => simp [get_jobs, hb, hr, hp]
      | some pr =>
        exfalso
        cases pr with
        | mk jobs header =>
          rw [show (get_jobs runCmd st).2 = none by simp [get_jobs, hb, hr, hp]] at h
          simp at h

/-- Closed instance of `get_jobs_error_preserves_snapshot`: a spawn failure
leaves the stored snapshot untouched. -/
theorem get_jobs_error_preserves_snapshot_witness :
    (get_jobs c8FailRun st0).1.jobs = st0.jobs ∧
    (get_jobs c8FailRun st0).1.squeue_header = st0.squeue_header :=
  get_jobs_error_preserves_snapshot c8FailRun st0 (by rfl)

/-- C10 counterexample: passing a non-None single-entry `detail_formopts`
does not produce a constructed Inspector with the attribute left unset — the
constructor itself fails, because line 98's bare `self.detail_formopts`
expression reads a never-assigned attribute and raises `AttributeError`
before `__init__` completes. -/
theorem init_with_detail_formopts_raises :
    inspector_init_opts none none none none (some [("-O".data, "JobId:256".data)]) =
      Except.error PyErr.attributeError := by rfl

/-- C10 amended: for every single-entry mapping passed as the
`detail_formopts` constructor argument (with well-formed earlier format
arguments), `Inspector.__init__` itself fails with the attribute-access
error at the bare `self.detail_formopts` expression; the mapping is never
stored, no Inspector is constructed, and `get_job_details` is never
reachable on such an instance. -/
theorem init_detail_formopts_attribute_error (sqg sig sqf sif : Option Dict) (d : Dict)
    (hsqf : ∀ f, sqf = some f → f.length = 1)
    (hsif : ∀ f, sif = some f → f.length = 1)
    (hd : d.length = 1) :
    inspector_init_opts sqg sig sqf sif (some d) = Except.error PyErr.attributeError := by
  cases sqf with
  | none =>
    cases sif with
    | none => simp [inspector_init_opts, hd]
    | some f2 =>
      have h2 := hsif f2 rfl
      simp [inspector_init_opts, hd, h2]
  | some f1 =>
    have h1 := hsqf f1 rfl
    cases sif with
    | none => simp [inspector_init_opts, hd, h1]
    | some f2 =>
      have h2 := hsif f2 rfl
      simp [inspector_init_opts, hd, h1, h2]

/-- Closed instance of `init_detail_formopts_attribute_error`. -/
theorem init_detail_formopts_attribute_error_witness :
    inspector_init_opts none none none none (some [("-O".data, "JobId".data)]) =
      Except.error PyErr.attributeError :=
  init_detail_formopts_attribute_error none none none none [("-O".data, "JobId".data)]
    (fun f hf => Option.noConfusion hf) (fun f hf => Option.noConfusion hf) (by decide)

/-- C9 counterexample: `get_jobs` stores `self.jobs` and `self.squeue_header`
by two successive attribute assignments with no lock, so a reader
interleaved between the two stores observes the new jobs list paired with
the old header — a mixed snapshot, refuting the claim that every reader sees
either the fully-old or the fully-new snapshot. -/
theorem snapshot_replace_not_atomic :
    ¬ (∀ t ∈ interleave (snapWriter [c2Job2] c2Hdr) snapReader,
        obsOf ⟨[c2Job1], ["OLD".data]⟩ t = (some [c2Job1], some ["OLD".data]) ∨
        obsOf ⟨[c2Job1], ["OLD".data]⟩ t = (some [c2Job2], some c2Hdr)) := by
  intro hall
  have hmem : [Act.wJobs [c2Job2], Act.rJobs, Act.rHeader, Act.wHeader c2Hdr] ∈
      interleave (snapWriter [c2Job2] c2Hdr) snapReader := by
    simp [interleave, snapWriter, snapReader]
  have hobs := hall _ hmem
  simp [obsOf, runTrace, c2Job1, c2Job2, c2Hdr] at hobs

/-- C9 amended: each shared attribute individually is replaced wholesale —
in every interleaving of the writer's two stores with the reader's two
loads, the reader's jobs value is either the fully-old or the fully-new
jobs list (never a partial one) and likewise for the header — but the pair
may be observed mixed, since the two stores are separate. -/
theorem snapshot_attribute_reads_whole (J1 J2 : List Job) (H1 H2 : List Str) :
    ∀ t ∈ interleave (snapWriter J2 H2) snapReader,
      ((obsOf ⟨J1, H1⟩ t).1 = some J1 ∨ (obsOf ⟨J1, H1⟩ t).1 = some J2) ∧
      ((obsOf ⟨J1, H1⟩ t).2 = some H1 ∨ (obsOf ⟨J1, H1⟩ t).2 = some H2) := by
  have henum : interleave (snapWriter J2 H2) snapReader =
      [[Act.wJobs J2, Act.wHeader H2, Act.rJobs, Act.rHeader],
       [Act.wJobs J2, Act.rJobs, Act.wHeader H2, Act.rHeader],
       [Act.wJobs J2, Act.rJobs, Act.rHeader, Act.wHeader H2],
       [Act.rJobs, Act.wJobs J2, Act.wHeader H2, Act.rHeader],
       [Act.rJobs, Act.wJobs J2, Act.rHeader, Act.wHeader H2],
       [Act.rJobs, Act.rHeader, Act.wJobs J2, Act.wHeader H2]] := by
    simp [interleave, snapWriter, snapReader]
  rw [henum]
  intro t ht
  simp only [List.mem_cons, List.not_mem_nil, or_false] at ht
  rcases ht with rfl | rfl | rfl | rfl | rfl | rfl <;> simp [obsOf, runTrace]

/-- Closed instance of `snapshot_attribute_reads_whole` at the mixed-read
interleaving. -/
theorem snapshot_attribute_reads_whole_witness :
    ((obsOf ⟨[c2Job1], ["OLD".data]⟩
        [Act.wJobs [c2Job2], Act.rJobs, Act.rHeader, Act.wHeader c2Hdr]).1 = some [c2Job1] ∨
     (obsOf ⟨[c2Job1], ["OLD".data]⟩
        [Act.wJobs [c2Job2], Act.rJobs, Act.rHeader, Act.wHeader c2Hdr]).1 = some [c2Job2]) ∧
    ((obsOf ⟨[c2Job1], ["OLD".data]⟩
        [Act.wJobs [c2Job2], Act.rJobs, Act.rHeader, Act.wHeader c2Hdr]).2 = some ["OLD".data] ∨
     (obsOf ⟨[c2Job1], ["OLD".data]⟩
        [Act.wJobs [c2Job2], Act.rJobs, Act.rHeader, Act.wHeader c2Hdr]).2 = some c2Hdr) :=
  snapshot_attribute_reads_whole [c2Job1] [c2Job2] ["OLD".data] c2Hdr
    [Act.wJobs [c2Job2], Act.rJobs, Act.rHeader, Act.wHeader c2Hdr]
    (by simp [interleave, snapWriter, snapReader])
